import Mathlib

/-!
# slicesx: a shallow embedding of `slicesx.go`

Go slices are modelled by their contents, a `List E`; backing storage and
capacity are not observable in any of the functions below.  Go's `int` is the
64-bit signed integer: arithmetic on it is carried out in `Int` and wrapped by
`wrapInt`.  A run-time panic of the Go program is a value `Except.error p`,
and `x.bind fun r => rest` runs `rest` on the result `r` of `x` unless `x`
panicked.
Callbacks (`func(E) R`, `func(E) bool`, ...) are pure total functions, except
in `SomeIndexTraced`, where the callback reads and updates a state.
-/

set_option autoImplicit false

namespace Slicesx

universe u v

/-! ## Machine integers and run-time panics -/

/-- Largest value of Go's `int` on a 64-bit target. -/
def maxInt : Int := 2 ^ 63 - 1

/-- Smallest value of Go's `int` on a 64-bit target. -/
def minInt : Int := -(2 ^ 63)

/-- Two's-complement wrap-around of an exact integer into the range of `int`.
It is applied wherever the source adds or subtracts a caller-supplied `int` or
two slice lengths; index arithmetic that stays between `0` and `len(raw)` is
left exact.  The balanced remainder `Int.bmod x (2 ^ 64)` is the
representative of `x` modulo `2 ^ 64` that lies in `[-2 ^ 63, 2 ^ 63)`. -/
def wrapInt (x : Int) : Int := Int.bmod x (2 ^ 64)

/-- The run-time panics that the functions of `slicesx.go` can raise. -/
inductive Panic where
  /-- Raised by `make([]T, 0, cap)` or `make([]T, n)` with a negative size. -/
  | makesliceOutOfRange
  /-- Raised by `raw[lo:hi]` unless `0 ≤ lo ≤ hi ≤ len(raw)`. -/
  | sliceBoundsOutOfRange
  /-- Raised by `raw[i]` unless `0 ≤ i < len(raw)`. -/
  | indexOutOfRange
  deriving DecidableEq, Repr

deriving instance DecidableEq for Except

/-- The length of a slice, as the `int` that `len(raw)` returns. -/
def len {E : Type u} (raw : List E) : Int := (raw.length : Int)

/-- The contents of a Go slice: its length is a value of `int`. -/
def Representable {E : Type u} (raw : List E) : Prop := len raw ≤ maxInt

instance {E : Type u} (raw : List E) : Decidable (Representable raw) :=
  inferInstanceAs (Decidable (len raw ≤ maxInt))

/-- Go's `make(S, 0, cap)`: an empty slice; panics when `cap` is negative.
(The upper limit on `cap`, the size of the address space, is not modelled.) -/
def makeEmpty {E : Type u} (cap : Int) : Except Panic (List E) :=
  if cap < 0 then Except.error Panic.makesliceOutOfRange else Except.ok []

/-- Go's `make(S, n)`: a slice of `n` zero values; panics when `n` is
negative.  The zero value of `E` is `default`. -/
def makeZeroed {E : Type u} [Inhabited E] (n : Int) : Except Panic (List E) :=
  if n < 0 then Except.error Panic.makesliceOutOfRange
  else Except.ok (List.replicate n.toNat default)

/-- Go's `raw[:hi]`: the first `hi` elements; panics unless `0 ≤ hi ≤ len(raw)`.
(Go checks `hi` against the capacity; every call below passes a value that is
at most `len(raw)`.) -/
def sliceTo {E : Type u} (raw : List E) (hi : Int) : Except Panic (List E) :=
  if 0 ≤ hi ∧ hi ≤ len raw then Except.ok (raw.take hi.toNat)
  else Except.error Panic.sliceBoundsOutOfRange

/-- Go's `raw[lo:]`: the elements from index `lo` on; panics unless
`0 ≤ lo ≤ len(raw)`. -/
def sliceFrom {E : Type u} (raw : List E) (lo : Int) : Except Panic (List E) :=
  if 0 ≤ lo ∧ lo ≤ len raw then Except.ok (raw.drop lo.toNat)
  else Except.error Panic.sliceBoundsOutOfRange

/-- Go's `raw[i]` read; panics unless `0 ≤ i < len(raw)`. -/
def index {E : Type u} (raw : List E) (i : Int) : Except Panic E :=
  if 0 ≤ i then
    match raw[i.toNat]? with
    | some v => Except.ok v
    | none => Except.error Panic.indexOutOfRange
  else Except.error Panic.indexOutOfRange

/-- Go's `result[i] = v` write; panics unless `0 ≤ i < len(result)`. -/
def setIndex {E : Type u} (result : List E) (i : Int) (v : E) : Except Panic (List E) :=
  if 0 ≤ i ∧ i < len result then Except.ok (result.set i.toNat v)
  else Except.error Panic.indexOutOfRange

/-! ## Transform family -/

/-- Loop of `MapIndex`: `for i, v := range raw { result = append(result, fn(v, i)) }`,
on the elements still to visit, the index `i` of the first of them and the
`result` so far. -/
def MapIndex.loop {E : Type u} {R : Type v} (fn : E → Int → R) : List E → Int → List R → List R
  | [], _, result => result
  | v :: rest, i, result => MapIndex.loop fn rest (i + 1) (result ++ [fn v i])

/-- Source function `MapIndex` (slicesx.go, lines 11-17). -/
def MapIndex {E : Type u} {R : Type v} (raw : List E) (fn : E → Int → R) : Except Panic (List R) :=
  (makeEmpty (len raw)).bind fun result =>
  Except.ok (MapIndex.loop fn raw 0 result)

/-- Source function `Map` (slicesx.go, lines 6-8). -/
def Map {E : Type u} {R : Type v} (raw : List E) (fn : E → R) : Except Panic (List R) :=
  MapIndex raw (fun v _ => fn v)

/-- Loop of `FilterIndex`: `for i, v := range raw { if fn(v, i) { result = append(result, v) } }`. -/
def FilterIndex.loop {E : Type u} (fn : E → Int → Bool) : List E → Int → List E → List E
  | [], _, result => result
  | v :: rest, i, result =>
    if fn v i then FilterIndex.loop fn rest (i + 1) (result ++ [v])
    else FilterIndex.loop fn rest (i + 1) result

/-- Source function `FilterIndex` (slicesx.go, lines 25-33). -/
def FilterIndex {E : Type u} (raw : List E) (fn : E → Int → Bool) : Except Panic (List E) :=
  (makeEmpty (len raw)).bind fun result =>
  Except.ok (FilterIndex.loop fn raw 0 result)

/-- Source function `Filter` (slicesx.go, lines 20-22). -/
def Filter {E : Type u} (raw : List E) (fn : E → Bool) : Except Panic (List E) :=
  FilterIndex raw (fun v _ => fn v)

/-- Loop of `SomeIndex`: `for i, v := range raw { if fn(v, i) { return true } }`. -/
def SomeIndex.loop {E : Type u} (fn : E → Int → Bool) : List E → Int → Bool
  | [], _ => false
  | v :: rest, i => if fn v i then true else SomeIndex.loop fn rest (i + 1)

/-- Source function `SomeIndex` (slicesx.go, lines 53-60). -/
def SomeIndex {E : Type u} (raw : List E) (fn : E → Int → Bool) : Bool :=
  SomeIndex.loop fn raw 0

/-- Source function `Some` (slicesx.go, lines 48-50). -/
def Some {E : Type u} (raw : List E) (fn : E → Bool) : Bool :=
  SomeIndex raw (fun v _ => fn v)

/-- Loop of `EveryIndex`: `for i, v := range raw { if !fn(v, i) { return false } }`. -/
def EveryIndex.loop {E : Type u} (fn : E → Int → Bool) : List E → Int → Bool
  | [], _ => true
  | v :: rest, i => if !fn v i then false else EveryIndex.loop fn rest (i + 1)

/-- Source function `EveryIndex` (slicesx.go, lines 68-75). -/
def EveryIndex {E : Type u} (raw : List E) (fn : E → Int → Bool) : Bool :=
  EveryIndex.loop fn raw 0

/-- Source function `Every` (slicesx.go, lines 63-65). -/
def Every {E : Type u} (raw : List E) (fn : E → Bool) : Bool :=
  EveryIndex raw (fun v _ => fn v)

/-- Source function `Reduce` (slicesx.go, lines 78-83):
`for _, v := range raw { initial = fn(initial, v) }; return initial`. -/
def Reduce {E : Type u} {R : Type v} : List E → (R → E → R) → R → R
  | [], _, initial => initial
  | v :: rest, fn, initial => Reduce rest fn (fn initial v)

/-- Loop of `ReduceRight`: `for i := len(raw) - 1; i >= 0; i-- { initial = fn(initial, raw[i]) }`.
The counter is `i + 1`, a natural number: `0` is the exit `i = -1`. -/
def ReduceRight.loop {E : Type u} {R : Type v} (raw : List E) (fn : R → E → R) :
    Nat → R → Except Panic R
  | 0, initial => Except.ok initial
  | i + 1, initial =>
    (index raw (i : Int)).bind fun v =>
    ReduceRight.loop raw fn i (fn initial v)

/-- Source function `ReduceRight` (slicesx.go, lines 94-99). -/
def ReduceRight {E : Type u} {R : Type v} (raw : List E) (fn : R → E → R) (initial : R) :
    Except Panic R :=
  ReduceRight.loop raw fn raw.length initial

/-! ## Structural family -/

/-- Source function `Unshift` (slicesx.go, lines 110-115). -/
def Unshift {E : Type u} (raw : List E) (value : List E) : Except Panic (List E) :=
  (makeEmpty (wrapInt (len value + len raw))).bind fun result =>
  let result := result ++ value
  let result := result ++ raw
  Except.ok result

/-- Source function `Push` (slicesx.go, lines 118-120): `append(raw, value...)`. -/
def Push {E : Type u} (raw : List E) (value : List E) : List E :=
  raw ++ value

/-- Source function `Shift` (slicesx.go, lines 123-129). -/
def Shift {E : Type u} (raw : List E) : Except Panic (List E) :=
  if len raw = 0 then Except.ok []
  else
    (makeEmpty (len raw - 1)).bind fun result =>
    (sliceFrom raw 1).bind fun tail =>
    Except.ok (result ++ tail)

/-- Source function `Pop` (slicesx.go, lines 132-138). -/
def Pop {E : Type u} (raw : List E) : Except Panic (List E) :=
  if len raw = 0 then Except.ok []
  else
    (makeEmpty (len raw - 1)).bind fun result =>
    (sliceTo raw (len raw - 1)).bind fun front =>
    Except.ok (result ++ front)

/-- Loop of `Reverse`: `for i := 0; i < n; i++ { result[i] = raw[n-1-i] }`.
The first argument is `n - i`, the number of iterations left: `0` is the exit
`i = n`. -/
def Reverse.loop {E : Type u} (raw : List E) (n : Int) : Nat → Int → List E → Except Panic (List E)
  | 0, _, result => Except.ok result
  | k + 1, i, result =>
    (index raw (n - 1 - i)).bind fun v =>
    (setIndex result i v).bind fun result =>
    Reverse.loop raw n k (i + 1) result

/-- Source function `Reverse` (slicesx.go, lines 141-148). -/
def Reverse {E : Type u} [Inhabited E] (raw : List E) : Except Panic (List E) :=
  let n := len raw
  (makeZeroed n).bind fun result =>
  Reverse.loop raw n n.toNat 0 result

/-- First loop of `Flat`: `for _, inner := range raw { total += len(inner) }`. -/
def Flat.total {E : Type u} : List (List E) → Int → Int
  | [], total => total
  | inner :: rest, total => Flat.total rest (wrapInt (total + len inner))

/-- Second loop of `Flat`: `for _, inner := range raw { result = append(result, inner...) }`. -/
def Flat.loop {E : Type u} : List (List E) → List E → List E
  | [], result => result
  | inner :: rest, result => Flat.loop rest (result ++ inner)

/-- Source function `Flat` (slicesx.go, lines 151-162). -/
def Flat {E : Type u} (raw : List (List E)) : Except Panic (List E) :=
  let total := Flat.total raw 0
  (makeEmpty total).bind fun result =>
  Except.ok (Flat.loop raw result)

/-- Loop of `FlatMapIndex`: `for i, v := range raw { result = append(result, fn(v, i)...) }`. -/
def FlatMapIndex.loop {E : Type u} {T : Type v} (fn : E → Int → List T) :
    List E → Int → List T → List T
  | [], _, result => result
  | v :: rest, i, result => FlatMapIndex.loop fn rest (i + 1) (result ++ fn v i)

/-- Source function `FlatMapIndex` (slicesx.go, lines 170-176). -/
def FlatMapIndex {E : Type u} {T : Type v} (raw : List E) (fn : E → Int → List T) :
    Except Panic (List T) :=
  (makeEmpty (len raw)).bind fun result =>
  Except.ok (FlatMapIndex.loop fn raw 0 result)

/-- Source function `FlatMap` (slicesx.go, lines 165-167). -/
def FlatMap {E : Type u} {T : Type v} (raw : List E) (fn : E → List T) : Except Panic (List T) :=
  FlatMapIndex raw (fun v _ => fn v)

/-- Source function `Splice` (slicesx.go, lines 179-197). -/
def Splice {E : Type u} (raw : List E) (start : Int) (deleteCount : Int)
    (values : List E) : Except Panic (List E) :=
  let start := if start < 0 then 0 else start
  let start := if start > len raw then len raw else start
  let endIdx := wrapInt (start + deleteCount)
  let endIdx := if endIdx > len raw then len raw else endIdx
  (makeEmpty (wrapInt (wrapInt (len raw - deleteCount) + len values))).bind fun result =>
  (sliceTo raw start).bind fun head =>
  let result := result ++ head
  let result := result ++ values
  (sliceFrom raw endIdx).bind fun tail =>
  Except.ok (result ++ tail)

/-! ## Type inspection -/

/-- The kinds of `reflect.Kind` (Go standard library, package `reflect`). -/
inductive Kind where
  | Invalid | Bool | Int | Int8 | Int16 | Int32 | Int64
  | Uint | Uint8 | Uint16 | Uint32 | Uint64 | Uintptr
  | Float32 | Float64 | Complex64 | Complex128
  | Array | Chan | Func | Interface | Map | Pointer | Slice | String | Struct
  | UnsafePointer
  deriving DecidableEq, Repr

/-- A value of Go's `any`: the nil interface, a slice (of `n` elements of a
type of kind `elem`), or a value of a type of any other kind. -/
inductive AnyValue where
  | nil
  | slice (elem : Kind) (n : Nat)
  | other (kind : Kind) (notSlice : kind ≠ Kind.Slice)

/-- The kind of the dynamic type, `reflect.TypeOf(value).Kind()`, of a non-nil
value. -/
def AnyValue.kind : AnyValue → Option Kind
  | AnyValue.nil => none
  | AnyValue.slice _ _ => some Kind.Slice
  | AnyValue.other k _ => some k

/-- Source function `IsSlice` (slicesx.go, lines 200-205). -/
def IsSlice (value : AnyValue) : Bool :=
  match value.kind with
  | none => false
  | some k => decide (k = Kind.Slice)

/-! ## Callbacks with side effects -/

/-- One invocation of a callback: the index and element it was given and the
boolean it returned. -/
structure Call (E : Type u) where
  /-- Index passed to the callback. -/
  idx : Int
  /-- Element passed to the callback. -/
  arg : E
  /-- Value the callback returned. -/
  result : Bool

/-- Loop of `SomeIndex` for a callback with side effects: the callback reads
and updates a state `σ`, and every invocation is appended to a call trace.
The control flow is that of `SomeIndex.loop`. -/
def SomeIndexTraced.loop {E : Type u} {σ : Type v} (fn : σ → E → Int → Bool × σ) :
    List E → Int → σ → List (Call E) → Bool × σ × List (Call E)
  | [], _, st, trace => (false, st, trace)
  | v :: rest, i, st, trace =>
    let r := fn st v i
    let trace := trace ++ [Call.mk i v r.1]
    if r.1 then (true, r.2, trace)
    else SomeIndexTraced.loop fn rest (i + 1) r.2 trace

/-- Source function `SomeIndex` run on a callback with side effects, from the
state `st`: the answer, the final state and the trace of calls. -/
def SomeIndexTraced {E : Type u} {σ : Type v} (raw : List E) (fn : σ → E → Int → Bool × σ)
    (st : σ) : Bool × σ × List (Call E) :=
  SomeIndexTraced.loop fn raw 0 st []

/-- Source function `Some` run on a callback with side effects. -/
def SomeTraced {E : Type u} {σ : Type v} (raw : List E) (fn : σ → E → Bool × σ) (st : σ) :
    Bool × σ × List (Call E) :=
  SomeIndexTraced raw (fun s v _ => fn s v) st

/-! ## Specification-level definitions -/

/-- The accumulator sequence of the specification of `Reduce`:
`acc 0 = initial` and `acc (i + 1) = fn (acc i) seq[i]`. -/
def leftFoldAcc {E : Type u} {R : Type v} (seq : List E) (fn : R → E → R) (initial : R) : Nat → R
  | 0 => initial
  | i + 1 =>
    match seq[i]? with
    | some v => fn (leftFoldAcc seq fn initial i) v
    | none => leftFoldAcc seq fn initial i

/-- The state of a side-effecting callback `fn` after it has been called, from
the state `st`, on the first `j` elements of `seq` in ascending index order,
once each. -/
def stateAfter {E : Type u} {σ : Type v} (seq : List E) (fn : σ → E → Bool × σ) (st : σ)
    (j : Nat) : σ :=
  (seq.take j).foldl (fun a v => (fn a v).2) st

/-! ## Arithmetic of `int` -/

@[simp]
theorem bind_ok {α : Type u} {β : Type v} (a : α) (f : α → Except Panic β) :
    (Except.ok a : Except Panic α).bind f = f a := rfl

@[simp]
theorem bind_error {α : Type u} {β : Type v} (p : Panic) (f : α → Except Panic β) :
    (Except.error p : Except Panic α).bind f = Except.error p := rfl

theorem wrapInt_of_fits (x : Int) (hlo : minInt ≤ x) (hhi : x ≤ maxInt) : wrapInt x = x := by
  unfold wrapInt Int.bmod
  unfold minInt at hlo
  unfold maxInt at hhi
  simp only []
  split_ifs <;> omega

theorem wrapInt_mem_range (x : Int) : minInt ≤ wrapInt x ∧ wrapInt x ≤ maxInt := by
  unfold wrapInt Int.bmod minInt maxInt
  simp only []
  split_ifs <;> omega

theorem wrapInt_emod (x : Int) : wrapInt x % 2 ^ 64 = x % 2 ^ 64 := by
  unfold wrapInt Int.bmod
  simp only []
  split_ifs <;> omega

theorem len_nonneg {E : Type u} (raw : List E) : 0 ≤ len raw := by
  unfold len
  omega

/-! ## Splice -/

/-- Claim C1, evaluated on the code: `Splice([], 0, 1)` does not return a
sequence; the capacity `len(raw) - deleteCount + len(values)` is `-1` and
`make` panics.  A negative `deleteCount` panics as well, in `raw[end:]`. -/
theorem Splice_panics_on_empty_delete_one :
    Splice ([] : List Int) 0 1 [] = Except.error Panic.makesliceOutOfRange ∧
      Splice [1, 2, 3] 0 (-1) [] = Except.error Panic.sliceBoundsOutOfRange := by
  decide

/-- In-range `Splice`, the general form shared by the claims about `Splice`:
when the capacity computed on line 192 is non-negative and `deleteCount` is
non-negative, the result is `raw[:start]`, the values, and `raw[end:]`, where
`start` and `end` are already clamped. -/
theorem Splice_of_clamped {E : Type u} (raw values : List E) (start deleteCount : Int)
    (hs0 : 0 ≤ start) (hs1 : start ≤ len raw) (hd0 : 0 ≤ deleteCount)
    (hcap : deleteCount ≤ len raw + len values)
    (hend : start + deleteCount ≤ maxInt)
    (hout : len raw + len values ≤ maxInt + deleteCount) :
    Splice raw start deleteCount values =
      Except.ok (raw.take start.toNat ++ values ++
        raw.drop (min (start + deleteCount) (len raw)).toNat) := by
  have hv := len_nonneg values
  have hr := len_nonneg raw
  have hmax : maxInt = 2 ^ 63 - 1 := rfl
  have hmin : minInt = -(2 ^ 63) := rfl
  have h1 : wrapInt (len raw - deleteCount) = len raw - deleteCount := by
    apply wrapInt_of_fits <;> omega
  have h2 : wrapInt (len raw - deleteCount + len values) = len raw - deleteCount + len values := by
    apply wrapInt_of_fits <;> omega
  have h3 : wrapInt (start + deleteCount) = start + deleteCount := by
    apply wrapInt_of_fits <;> omega
  have hs0' : ¬ start < 0 := by omega
  have hs1' : ¬ start > len raw := by omega
  have hcap' : ¬ len raw - deleteCount + len values < 0 := by omega
  unfold Splice
  simp only [h1, h2, h3, hs0', hs1', if_false, makeEmpty, hcap', sliceTo, sliceFrom]
  by_cases he : start + deleteCount > len raw
  · have hm : min (start + deleteCount) (len raw) = len raw := by omega
    simp [he, hm, hs0, hs1, hr]
  · have hm : min (start + deleteCount) (len raw) = start + deleteCount := by omega
    have h4 : 0 ≤ start + deleteCount := by omega
    have h5 : start + deleteCount ≤ len raw := by omega
    simp [he, hm, hs0, hs1, h4, h5]

/-- Claim C2: for `0 ≤ start`, `0 ≤ deleteCount` and
`start + deleteCount ≤ len(seq)`, `Splice(seq, start, deleteCount, vs...)` is
`seq[0:start]` followed by `vs` followed by `seq[start+deleteCount:]`.  The
sequence and the result are Go slices (`Representable`: their lengths are
values of `int`). -/
theorem Splice_in_range {E : Type u} (seq vs : List E) (start deleteCount : Int)
    (hs : 0 ≤ start) (hd : 0 ≤ deleteCount) (hsd : start + deleteCount ≤ len seq)
    (hseq : Representable seq)
    (hout : Representable
      (seq.take start.toNat ++ vs ++ seq.drop (start + deleteCount).toNat)) :
    Splice seq start deleteCount vs =
      Except.ok (seq.take start.toNat ++ vs ++ seq.drop (start + deleteCount).toNat) := by
  have hv := len_nonneg vs
  unfold Representable at hseq hout
  have hlen : len (seq.take start.toNat ++ vs ++ seq.drop (start + deleteCount).toNat) =
      len seq - deleteCount + len vs := by
    unfold len at hsd ⊢
    simp only [List.length_append, List.length_take, List.length_drop]
    omega
  rw [hlen] at hout
  have h := Splice_of_clamped seq vs start deleteCount hs (by omega) hd (by omega)
    (by omega) (by omega)
  have hm : min (start + deleteCount) (len seq) = start + deleteCount := by omega
  rw [h, hm]

/-- Witness of claim C2: `Splice([1,2,3,4,5], 1, 2, 9, 9) = [1,9,9,4,5]`. -/
theorem Splice_in_range_witness :
    Splice [1, 2, 3, 4, 5] 1 2 [9, 9] = Except.ok [1, 9, 9, 4, 5] :=
  Splice_in_range [1, 2, 3, 4, 5] [9, 9] 1 2 (by decide) (by decide) (by decide)
    (by decide) (by decide)

/-- Claim C3: a negative `start` has the outcome of `start = 0`, and a `start`
beyond `len(seq)` has the outcome of `start = len(seq)`, for every
`deleteCount` and values (outcomes are compared panics included). -/
theorem Splice_start_clamped {E : Type u} (seq vs : List E) (deleteCount : Int)
    (lo hi : Int) (hlo : lo < 0) (hhi : len seq < hi) :
    Splice seq lo deleteCount vs = Splice seq 0 deleteCount vs ∧
      Splice seq hi deleteCount vs = Splice seq (len seq) deleteCount vs := by
  have hr := len_nonneg seq
  have h1 : ¬ hi < 0 := by omega
  have h2 : ¬ len seq < 0 := by omega
  constructor
  · simp [Splice, hlo]
  · simp [Splice, hhi, h1, h2]

/-- Witness of claim C3, at `start = -2` and `start = 7` on `[1,2,3]`. -/
theorem Splice_start_clamped_witness :
    Splice [1, 2, 3] (-2) 1 [9] = Splice [1, 2, 3] 0 1 [9] ∧
      Splice [1, 2, 3] 7 1 [9] = Splice [1, 2, 3] (len [1, 2, 3]) 1 [9] :=
  Splice_start_clamped [1, 2, 3] [9] 1 (-2) 7 (by decide) (by decide)

/-- Claim C4, evaluated on the code: `Splice([1,2,3], 0, 5)` should remove
everything from `start` on and return `[]`; the capacity
`len(raw) - deleteCount + len(values)` is `-2` and `make` panics. -/
theorem Splice_panics_on_overlong_delete :
    Splice ([1, 2, 3] : List Int) 0 5 [] = Except.error Panic.makesliceOutOfRange := by
  decide

/-- Clamping of the end of the delete window, where the code reaches it: for
`0 ≤ start ≤ len(seq)` and `start + deleteCount > len(seq)`, with a capacity
`len(seq) - deleteCount + len(vs)` that is not negative, `Splice` returns
`seq[0:start]` followed by `vs`. -/
theorem Splice_end_clamped {E : Type u} (seq vs : List E) (start deleteCount : Int)
    (hs0 : 0 ≤ start) (hs1 : start ≤ len seq) (hd : 0 ≤ deleteCount)
    (hsd : len seq < start + deleteCount)
    (hcap : deleteCount ≤ len seq + len vs)
    (hend : start + deleteCount ≤ maxInt)
    (hout : Representable (seq.take start.toNat ++ vs)) :
    Splice seq start deleteCount vs = Except.ok (seq.take start.toNat ++ vs) := by
  have hv := len_nonneg vs
  unfold Representable at hout
  have hlen : len (seq.take start.toNat ++ vs) = start + len vs := by
    unfold len at hs1 ⊢
    simp only [List.length_append, List.length_take]
    omega
  rw [hlen] at hout
  have h := Splice_of_clamped seq vs start deleteCount hs0 hs1 hd hcap hend (by omega)
  have hm : min (start + deleteCount) (len seq) = len seq := by omega
  rw [h, hm]
  simp [len]

/-! ## Map, Filter, Reduce -/

theorem makeEmpty_len {E : Type u} {R : Type v} (raw : List E) :
    (makeEmpty (len raw) : Except Panic (List R)) = Except.ok [] := by
  have h : ¬ len raw < 0 := by have := len_nonneg raw; omega
  simp [makeEmpty, h]

theorem MapIndex_loop_eq {E : Type u} {R : Type v} (f : E → R) (l : List E) (i : Int)
    (result : List R) :
    MapIndex.loop (fun v _ => f v) l i result = result ++ l.map f := by
  induction l generalizing i result with
  | nil => simp [MapIndex.loop]
  | cons v rest ih => simp [MapIndex.loop, ih]

theorem Map_eq_map {E : Type u} {R : Type v} (s : List E) (f : E → R) :
    Map s f = Except.ok (s.map f) := by
  simp [Map, MapIndex, makeEmpty_len, MapIndex_loop_eq]

/-- Claim C5: `Map(s, f)` returns a sequence of length `len(s)` whose element
at every index `i < len(s)` is `f(s[i])`; `Map([1,2,3], v -> 2*v) = [2,4,6]`. -/
theorem Map_length_and_index {E : Type u} {R : Type v} (s : List E) (f : E → R) :
    (∃ r : List R, Map s f = Except.ok r ∧ r.length = s.length ∧
      ∀ i : Fin s.length, r[i.val]? = some (f (s.get i))) ∧
    Map [1, 2, 3] (fun v : Int => 2 * v) = Except.ok [2, 4, 6] := by
  refine ⟨⟨s.map f, Map_eq_map s f, by simp, ?_⟩, by decide⟩
  intro i
  simp

theorem FilterIndex_loop_eq {E : Type u} (p : E → Bool) (l : List E) (i : Int)
    (result : List E) :
    FilterIndex.loop (fun v _ => p v) l i result = result ++ l.filter p := by
  induction l generalizing i result with
  | nil => simp [FilterIndex.loop]
  | cons v rest ih =>
    by_cases h : p v = true
    · simp [FilterIndex.loop, ih, h]
    · simp [FilterIndex.loop, ih, h]

theorem Filter_eq_filter {E : Type u} (s : List E) (p : E → Bool) :
    Filter s p = Except.ok (s.filter p) := by
  simp [Filter, FilterIndex, makeEmpty_len, FilterIndex_loop_eq]

/-- Claim C6: `Filter(s, p)` returns the sub-sequence of the elements of `s`
for which `p` is true, in their original order: it is a sublist of `s`, of
length at most `len(s)`, whose members are the members of `s` that satisfy
`p`, and every element of `s` that satisfies `p` is kept as often as it
occurs.  `Filter(s, alwaysTrue) = s`, `Filter(s, alwaysFalse) = []` and
`Filter([1,2,3,4], even) = [2,4]`. -/
theorem Filter_spec {E : Type u} (s : List E) (p : E → Bool) :
    (∃ r : List E, Filter s p = Except.ok r ∧ r = s.filter p ∧ List.Sublist r s ∧
      r.length ≤ s.length ∧ (∀ x, x ∈ r ↔ x ∈ s ∧ p x = true) ∧
      r.length = s.countP p) ∧
    Filter s (fun _ => true) = Except.ok s ∧
    Filter s (fun _ => false) = Except.ok [] ∧
    Filter [1, 2, 3, 4] (fun v : Int => decide (v % 2 = 0)) = Except.ok [2, 4] := by
  refine ⟨⟨s.filter p, Filter_eq_filter s p, rfl, List.filter_sublist s,
    List.length_filter_le p s, ?_, ?_⟩, ?_, ?_, by decide⟩
  · intro x
    simp [List.mem_filter]
  · rw [List.countP_eq_length_filter]
  · rw [Filter_eq_filter]
    simp
  · rw [Filter_eq_filter]
    simp

theorem Reduce_eq_foldl {E : Type u} {R : Type v} (s : List E) (fn : R → E → R) (init : R) :
    Reduce s fn init = s.foldl fn init := by
  induction s generalizing init with
  | nil => rfl
  | cons v rest ih => simp [Reduce, ih]

theorem leftFoldAcc_eq_foldl_take {E : Type u} {R : Type v} (s : List E) (fn : R → E → R)
    (init : R) (k : Nat) (hk : k ≤ s.length) :
    leftFoldAcc s fn init k = (s.take k).foldl fn init := by
  induction k with
  | zero => simp [leftFoldAcc]
  | succ k ih =>
    have hlt : k < s.length := by omega
    have hget : s[k]? = some s[k] := List.getElem?_eq_getElem hlt
    rw [leftFoldAcc, hget, List.take_succ, hget, Option.toList, List.foldl_append,
      ← ih (by omega)]
    rfl

/-- Claim C7: `Reduce(s, fn, init)` is the left fold `acc 0 = init`,
`acc (i+1) = fn(acc i, s[i])`, returning `acc (len s)`; on the empty sequence
it returns `init`; `Reduce([1,2,3], +, 0) = 6`. -/
theorem Reduce_is_left_fold {E : Type u} {R : Type v} (s : List E) (fn : R → E → R) (init : R) :
    Reduce s fn init = leftFoldAcc s fn init s.length ∧
    leftFoldAcc s fn init 0 = init ∧
    (∀ i : Fin s.length,
      leftFoldAcc s fn init (i.val + 1) = fn (leftFoldAcc s fn init i.val) (s.get i)) ∧
    Reduce ([] : List E) fn init = init ∧
    Reduce [1, 2, 3] (fun acc cur : Int => acc + cur) 0 = 6 := by
  refine ⟨?_, rfl, ?_, rfl, by decide⟩
  · rw [leftFoldAcc_eq_foldl_take s fn init s.length (le_refl _), Reduce_eq_foldl]
    simp
  · intro i
    have hget : s[i.val]? = some (s.get i) := by simp
    rw [leftFoldAcc, hget]

/-! ## Reverse and ReduceRight -/

theorem index_of_lt {E : Type u} (raw : List E) (i : Nat) (h : i < raw.length) :
    index raw (i : Int) = Except.ok (raw.get ⟨i, h⟩) := by
  have h0 : (0 : Int) ≤ (i : Int) := by omega
  have hget : raw[i]? = some (raw.get ⟨i, h⟩) := by simp [List.getElem?_eq_getElem h]
  simp [index, h0, hget]

theorem Reverse_loop_eq {E : Type u} (s : List E) (k : Nat) :
    ∀ (i : Nat) (pre rest : List E), i + k = s.length → pre = s.reverse.take i →
      rest.length = k →
      Reverse.loop s (len s) k (i : Int) (pre ++ rest) = Except.ok s.reverse := by
  induction k with
  | zero =>
    intro i pre rest hik hpre hrest
    have hnil : rest = [] := List.length_eq_zero.mp hrest
    have hi : i = s.reverse.length := by simp; omega
    subst hnil
    rw [hpre, hi, List.take_length]
    simp [Reverse.loop]
  | succ k ih =>
    intro i pre rest hik hpre hrest
    cases rest with
    | nil => simp at hrest
    | cons r rest =>
      have hlt : s.length - 1 - i < s.length := by omega
      have hidx : len s - 1 - (i : Int) = ((s.length - 1 - i : Nat) : Int) := by
        unfold len
        omega
      have hprelen : pre.length = i := by
        rw [hpre, List.length_take, List.length_reverse]
        omega
      have hset : setIndex (pre ++ r :: rest) (i : Int) (s.get ⟨s.length - 1 - i, hlt⟩) =
          Except.ok ((pre ++ [s.get ⟨s.length - 1 - i, hlt⟩]) ++ rest) := by
        have hb : (0 : Int) ≤ (i : Int) ∧ (i : Int) < len (pre ++ r :: rest) := by
          unfold len
          simp only [List.length_append, List.length_cons, hprelen]
          omega
        simp [setIndex, hb, List.set_append, hprelen]
      have hpre' : pre ++ [s.get ⟨s.length - 1 - i, hlt⟩] = s.reverse.take (i + 1) := by
        have hi' : i < s.reverse.length := by simp; omega
        rw [List.take_succ, ← hpre, List.getElem?_eq_getElem hi']
        simp [List.getElem_reverse]
      rw [Reverse.loop, hidx, index_of_lt s _ hlt, bind_ok, hset, bind_ok]
      have := ih (i + 1) (pre ++ [s.get ⟨s.length - 1 - i, hlt⟩]) rest (by omega) hpre'
        (by simpa using hrest)
      simpa using this

theorem Reverse_eq_reverse {E : Type u} [Inhabited E] (s : List E) :
    Reverse s = Except.ok s.reverse := by
  have h : ¬ len s < 0 := by have := len_nonneg s; omega
  have hn : (len s).toNat = s.length := by simp [len]
  have := Reverse_loop_eq s s.length 0 [] (List.replicate s.length default) (by simp)
    (by simp) (by simp)
  simp only [Reverse, makeZeroed, h, if_false, hn]
  simpa using this

theorem ReduceRight_loop_eq {E : Type u} {R : Type v} (raw : List E) (fn : R → E → R)
    (k : Nat) (hk : k ≤ raw.length) (init : R) :
    ReduceRight.loop raw fn k init = Except.ok ((raw.take k).reverse.foldl fn init) := by
  induction k generalizing init with
  | zero => simp [ReduceRight.loop]
  | succ k ih =>
    have hlt : k < raw.length := by omega
    rw [ReduceRight.loop, index_of_lt raw k hlt, bind_ok]
    rw [ih (by omega), List.take_succ, List.getElem?_eq_getElem hlt]
    simp only [Option.toList, List.reverse_append, List.reverse_cons, List.reverse_nil,
      List.nil_append, List.singleton_append, List.foldl_cons, List.get_eq_getElem]

/-- Claim C8: `ReduceRight(s, fn, init)` folds from the last element toward
index 0: it returns `Reduce(Reverse(s), fn, init)`, and `init` on the empty
sequence; on `["a","b","c"]` with concatenation it gives `"cba"` where
`Reduce` gives `"abc"`. -/
theorem ReduceRight_eq_Reduce_Reverse {E : Type u} {R : Type v} [Inhabited E] (s : List E)
    (fn : R → E → R) (init : R) :
    (∃ r : List E, Reverse s = Except.ok r ∧
      ReduceRight s fn init = Except.ok (Reduce r fn init)) ∧
    ReduceRight ([] : List E) fn init = Except.ok init ∧
    ReduceRight ["a", "b", "c"] (fun acc cur : String => acc ++ cur) "" = Except.ok "cba" ∧
    Reduce ["a", "b", "c"] (fun acc cur : String => acc ++ cur) "" = "abc" := by
  refine ⟨⟨s.reverse, Reverse_eq_reverse s, ?_⟩, rfl, by decide, by decide⟩
  rw [ReduceRight, ReduceRight_loop_eq s fn s.length (le_refl _), Reduce_eq_foldl]
  simp

/-! ## Some and Every -/

theorem SomeIndex_loop_eq_any {E : Type u} (p : E → Bool) (l : List E) (i : Int) :
    SomeIndex.loop (fun v _ => p v) l i = l.any p := by
  induction l generalizing i with
  | nil => rfl
  | cons v rest ih =>
    by_cases h : p v = true
    · simp [SomeIndex.loop, h]
    · simp [SomeIndex.loop, h, ih]

theorem EveryIndex_loop_eq_all {E : Type u} (p : E → Bool) (l : List E) (i : Int) :
    EveryIndex.loop (fun v _ => p v) l i = l.all p := by
  induction l generalizing i with
  | nil => rfl
  | cons v rest ih =>
    by_cases h : p v = true
    · simp [EveryIndex.loop, h, ih]
    · simp [EveryIndex.loop, h]

/-- Claim C9: `Some(s, p)` is true if and only if some index `i < len(s)` has
`p(s[i])` true; `Some([], p)` is false. -/
theorem Some_iff_exists {E : Type u} (s : List E) (p : E → Bool) :
    (Some s p = true ↔ ∃ i : Fin s.length, p (s.get i) = true) ∧
    Some ([] : List E) p = false := by
  refine ⟨?_, rfl⟩
  rw [Some, SomeIndex, SomeIndex_loop_eq_any, List.any_eq_true]
  constructor
  · rintro ⟨x, hx, hp⟩
    obtain ⟨i, hi⟩ := List.get_of_mem hx
    exact ⟨i, by rw [hi]; exact hp⟩
  · rintro ⟨i, hp⟩
    exact ⟨s.get i, List.get_mem s i.val i.isLt, hp⟩

/-- Claim C10: `Every(s, p)` is true if and only if `p(s[i])` is true at every
index `i < len(s)`; `Every([], p)` is true. -/
theorem Every_iff_forall {E : Type u} (s : List E) (p : E → Bool) :
    (Every s p = true ↔ ∀ i : Fin s.length, p (s.get i) = true) ∧
    Every ([] : List E) p = true := by
  refine ⟨?_, rfl⟩
  rw [Every, EveryIndex, EveryIndex_loop_eq_all, List.all_eq_true]
  constructor
  · intro h i
    exact h (s.get i) (List.get_mem s i.val i.isLt)
  · intro h x hx
    obtain ⟨i, hi⟩ := List.get_of_mem hx
    rw [← hi]
    exact h i

/-! ## Reverse -/

/-- Claim C11: for `s` of length `n`, `Reverse(s)` returns a sequence of length
`n` whose element at every index `i < n` is `s[n-1-i]`;
`Reverse([1,2,3]) = [3,2,1]`. -/
theorem Reverse_length_and_index {E : Type u} [Inhabited E] (s : List E) :
    (∃ r : List E, Reverse s = Except.ok r ∧ r.length = s.length ∧
      ∀ i : Fin s.length, r[i.val]? = s[s.length - 1 - i.val]? ∧
        s.length - 1 - i.val < s.length) ∧
    Reverse [1, 2, 3] = Except.ok ([3, 2, 1] : List Int) := by
  refine ⟨⟨s.reverse, Reverse_eq_reverse s, by simp, ?_⟩, by decide⟩
  intro i
  have hi := i.isLt
  exact ⟨List.getElem?_reverse hi, by omega⟩

/-- Claim C12: `Reverse(Reverse(s))` is `s`. -/
theorem Reverse_involution {E : Type u} [Inhabited E] (s : List E) :
    ∃ r : List E, Reverse s = Except.ok r ∧ Reverse r = Except.ok s := by
  refine ⟨s.reverse, Reverse_eq_reverse s, ?_⟩
  rw [Reverse_eq_reverse, List.reverse_reverse]

/-! ## Flat and FlatMap -/

theorem Flat_loop_eq {E : Type u} (l : List (List E)) (result : List E) :
    Flat.loop l result = result ++ l.flatten := by
  induction l generalizing result with
  | nil => simp [Flat.loop]
  | cons inner rest ih => simp [Flat.loop, ih]

theorem Flat_total_eq {E : Type u} (l : List (List E)) (total : Int) (h0 : 0 ≤ total)
    (hfit : total + len l.flatten ≤ maxInt) :
    Flat.total l total = total + len l.flatten := by
  induction l generalizing total with
  | nil => simp [Flat.total, len]
  | cons inner rest ih =>
    have hi := len_nonneg inner
    have hr := len_nonneg rest.flatten
    have hj : len (inner :: rest).flatten = len inner + len rest.flatten := by
      simp [len]
    rw [hj] at hfit ⊢
    have hmin : minInt = -(2 ^ 63) := rfl
    have hw : wrapInt (total + len inner) = total + len inner := by
      apply wrapInt_of_fits <;> omega
    rw [Flat.total, hw, ih (total + len inner) (by omega) (by omega)]
    omega

theorem Flat_eq_join {E : Type u} (ss : List (List E)) (hout : Representable ss.flatten) :
    Flat ss = Except.ok ss.flatten := by
  unfold Representable at hout
  have ht := Flat_total_eq ss 0 (le_refl _) (by omega)
  have h0 : ¬ (len ss.flatten < 0) := by have := len_nonneg ss.flatten; omega
  simp [Flat, ht, makeEmpty, h0, Flat_loop_eq]

/-- Claim C13: `Flat(ss)` is the concatenation of the inner sequences in
order, one nesting level, and its length is the sum of the inner lengths;
`Flat([[1,2],[3],[4,5]]) = [1,2,3,4,5]`.  The concatenation is a Go slice
(`Representable`: its length is a value of `int`). -/
theorem Flat_is_concatenation {E : Type u} (ss : List (List E))
    (hout : Representable ss.flatten) :
    ∃ r : List E, Flat ss = Except.ok r ∧ r = ss.foldr (fun inner acc => inner ++ acc) [] ∧
      r.length = (ss.map List.length).sum := by
  refine ⟨ss.flatten, Flat_eq_join ss hout, ?_, by simp [List.length_flatten]⟩
  induction ss with
  | nil => rfl
  | cons inner rest ih =>
    have hrest : Representable rest.flatten := by
      unfold Representable len at hout ⊢
      simp only [List.flatten_cons, List.length_append] at hout
      omega
    simp [ih hrest]

/-- Witness of claim C13: `Flat([[1,2],[3],[4,5]]) = [1,2,3,4,5]`. -/
theorem Flat_is_concatenation_witness :
    ∃ r : List Int, Flat [[1, 2], [3], [4, 5]] = Except.ok r ∧ r = [1, 2, 3, 4, 5] ∧
      r.length = 5 :=
  Flat_is_concatenation [[1, 2], [3], [4, 5]] (by decide)

theorem FlatMapIndex_loop_eq {E : Type u} {T : Type v} (fn : E → List T) (l : List E)
    (i : Int) (result : List T) :
    FlatMapIndex.loop (fun v _ => fn v) l i result = result ++ (l.map fn).flatten := by
  induction l generalizing i result with
  | nil => simp [FlatMapIndex.loop]
  | cons v rest ih => simp [FlatMapIndex.loop, ih]

theorem FlatMap_eq_join_map {E : Type u} {T : Type v} (s : List E) (fn : E → List T) :
    FlatMap s fn = Except.ok (s.map fn).flatten := by
  simp [FlatMap, FlatMapIndex, makeEmpty_len, FlatMapIndex_loop_eq]

/-- Claim C14: `FlatMap(s, fn)` is the concatenation, in index order, of
`fn(s[0])`, `fn(s[1])`, ...: it returns what `Flat(Map(s, fn))` returns.  The
concatenation is a Go slice (`Representable`). -/
theorem FlatMap_eq_Flat_Map {E : Type u} {T : Type v} (s : List E) (fn : E → List T)
    (hout : Representable (s.map fn).flatten) :
    ∃ (m : List (List T)) (r : List T), Map s fn = Except.ok m ∧ Flat m = Except.ok r ∧
      FlatMap s fn = Except.ok r ∧
      r = s.foldr (fun v acc => fn v ++ acc) [] := by
  refine ⟨s.map fn, (s.map fn).flatten, Map_eq_map s fn, Flat_eq_join _ hout,
    FlatMap_eq_join_map s fn, ?_⟩
  clear hout
  induction s with
  | nil => rfl
  | cons v rest ih => simp [ih]

/-- Witness of claim C14:
`FlatMap([1,2,3], v -> ["x", str(v)]) = ["x","1","x","2","x","3"]`. -/
theorem FlatMap_eq_Flat_Map_witness :
    ∃ (m : List (List String)) (r : List String),
      Map [1, 2, 3] (fun v : Nat => ["x", Nat.repr v]) = Except.ok m ∧
      Flat m = Except.ok r ∧
      FlatMap [1, 2, 3] (fun v : Nat => ["x", Nat.repr v]) = Except.ok r ∧
      r = ["x", "1", "x", "2", "x", "3"] :=
  FlatMap_eq_Flat_Map [1, 2, 3] (fun v : Nat => ["x", Nat.repr v]) (by decide)

/-! ## Push, Unshift, Shift, Pop -/

theorem Unshift_eq_append {E : Type u} (s vs : List E) (hout : Representable (vs ++ s)) :
    Unshift s vs = Except.ok (vs ++ s) := by
  have hv := len_nonneg vs
  have hs := len_nonneg s
  have hl : len (vs ++ s) = len vs + len s := by simp [len]
  unfold Representable at hout
  rw [hl] at hout
  have hmin : minInt = -(2 ^ 63) := rfl
  have hw : wrapInt (len vs + len s) = len vs + len s := by
    apply wrapInt_of_fits <;> omega
  have h0 : ¬ (len vs + len s < 0) := by omega
  unfold Unshift
  simp only [hw, makeEmpty, h0, if_false, bind_ok, List.nil_append]

/-- Claim C15: `Push(s, vs...)` is `s` followed by `vs` and `Unshift(s, vs...)`
is `vs` followed by `s`, each of length `len(s) + len(vs)`.  The result of
`Unshift` is a Go slice (`Representable`: its length is a value of `int`). -/
theorem Push_Unshift_spec {E : Type u} (s vs : List E) (hout : Representable (vs ++ s)) :
    Push s vs = s ++ vs ∧ (Push s vs).length = s.length + vs.length ∧
    ∃ r : List E, Unshift s vs = Except.ok r ∧ r = vs ++ s ∧
      r.length = s.length + vs.length := by
  refine ⟨rfl, by simp [Push], vs ++ s, Unshift_eq_append s vs hout, rfl, ?_⟩
  simp [Nat.add_comm]

/-- Witness of claim C15, at `s = [1,2]` and `vs = [3,4]`:
`Push([1,2], 3, 4) = [1,2,3,4]` and `Unshift([1,2], 3, 4) = [3,4,1,2]`. -/
theorem Push_Unshift_spec_witness :
    Push [1, 2] [3, 4] = ([1, 2, 3, 4] : List Int) ∧ (Push [1, 2] [3, 4]).length = 2 + 2 ∧
    ∃ r : List Int, Unshift [1, 2] [3, 4] = Except.ok r ∧ r = [3, 4, 1, 2] ∧
      r.length = 2 + 2 :=
  Push_Unshift_spec [1, 2] [3, 4] (by decide)

theorem Shift_cons {E : Type u} (x : E) (t : List E) : Shift (x :: t) = Except.ok t := by
  have h1 : ¬ (len (x :: t) = 0) := by simp [len]; omega
  have h2 : ¬ (len (x :: t) - 1 < 0) := by simp [len]
  have h3 : (0 : Int) ≤ 1 ∧ (1 : Int) ≤ len (x :: t) := by simp [len]
  simp [Shift, h1, makeEmpty, h2, sliceFrom, h3]

theorem Pop_concat {E : Type u} (t : List E) (x : E) : Pop (t ++ [x]) = Except.ok t := by
  have h1 : ¬ (len (t ++ [x]) = 0) := by simp [len]; omega
  have h2 : ¬ (len (t ++ [x]) - 1 < 0) := by simp [len]
  have h3 : (0 : Int) ≤ len (t ++ [x]) - 1 ∧ len (t ++ [x]) - 1 ≤ len (t ++ [x]) := by
    simp [len]
  have h4 : (len (t ++ [x]) - 1).toNat = t.length := by simp [len]
  simp [Pop, h1, makeEmpty, h2, sliceTo, h3, h4]

/-- Claim C16: for a non-empty `s`, `Shift(s)` is `s` without its first
element and `Pop(s)` is `s` without its last element, both of length
`len(s) - 1`; on the empty sequence both return the empty sequence. -/
theorem Shift_Pop_spec {E : Type u} (s : List E) (hne : s ≠ []) :
    (∃ r : List E, Shift s = Except.ok r ∧ r = s.tail ∧ r.length = s.length - 1 ∧
      ∀ x : E, x :: r = s ↔ s.head? = some x) ∧
    (∃ r : List E, Pop s = Except.ok r ∧ r = s.dropLast ∧ r.length = s.length - 1 ∧
      ∀ x : E, r ++ [x] = s ↔ s.getLast? = some x) ∧
    Shift ([] : List E) = Except.ok [] ∧ Pop ([] : List E) = Except.ok [] := by
  refine ⟨?_, ?_, rfl, rfl⟩
  · cases s with
    | nil => exact absurd rfl hne
    | cons x t =>
      refine ⟨t, Shift_cons x t, rfl, by simp, ?_⟩
      intro y
      simp [eq_comm]
  · obtain ⟨t, x, rfl⟩ : ∃ t x, s = t ++ [x] :=
      ⟨s.dropLast, s.getLast hne, (List.dropLast_append_getLast hne).symm⟩
    refine ⟨t, Pop_concat t x, by simp, by simp, ?_⟩
    intro y
    simp [eq_comm]

/-- Witness of claim C16: `Shift([1,2,3]) = [2,3]` and `Pop([1,2,3]) = [1,2]`. -/
theorem Shift_Pop_spec_witness :
    Shift [1, 2, 3] = Except.ok ([2, 3] : List Int) ∧
    Pop [1, 2, 3] = Except.ok ([1, 2] : List Int) :=
  have h := Shift_Pop_spec ([1, 2, 3] : List Int) (by decide)
  ⟨by obtain ⟨r, hr, hrt, _⟩ := h.1; rw [hr, hrt]; rfl,
   by obtain ⟨r, hr, hrt, _⟩ := h.2.1; rw [hr, hrt]; rfl⟩

/-! ## IsSlice -/

/-- Claim C18: `IsSlice(v)` is true if and only if `v` is a slice; it is false
for the nil interface and for every value of a type that is not a slice type;
`IsSlice([1])` is true, `IsSlice(10)` and `IsSlice(nil)` are false. -/
theorem IsSlice_iff_slice (value : AnyValue) :
    (IsSlice value = true ↔ ∃ (elem : Kind) (n : Nat), value = AnyValue.slice elem n) ∧
    IsSlice AnyValue.nil = false ∧
    (∀ (k : Kind) (hk : k ≠ Kind.Slice), IsSlice (AnyValue.other k hk) = false) ∧
    IsSlice (AnyValue.slice Kind.Int 1) = true ∧
    IsSlice (AnyValue.other Kind.Int (by decide)) = false := by
  refine ⟨?_, rfl, ?_, rfl, rfl⟩
  · cases value with
    | nil => simp [IsSlice, AnyValue.kind]
    | slice elem n => simp [IsSlice, AnyValue.kind]
    | other k hk => simp [IsSlice, AnyValue.kind, hk]
  · intro k hk
    simp [IsSlice, AnyValue.kind, hk]

/-! ## Splice and the other structural operations -/

/-- Claim C19, evaluated on the code: `Splice([1,2,3], 2, -1)` returns
`[1,2,2,3]`, of length 4, longer than `len(seq) + len(vs) = 3`: the element
`2` of the original sequence occurs twice. -/
theorem Splice_negative_delete_duplicates :
    Splice ([1, 2, 3] : List Int) 2 (-1) [] = Except.ok [1, 2, 2, 3] := by
  decide

/-- Claim C20, evaluated on the code: on the empty sequence `Shift` and `Pop`
return the empty sequence while `Splice([], 0, 1)` and
`Splice([], len([]) - 1, 1)` panic in `make`. -/
theorem Shift_Pop_not_Splice_on_empty :
    Shift ([] : List Int) = Except.ok [] ∧
    Splice ([] : List Int) 0 1 [] = Except.error Panic.makesliceOutOfRange ∧
    Pop ([] : List Int) = Except.ok [] ∧
    Splice ([] : List Int) (len ([] : List Int) - 1) 1 [] =
      Except.error Panic.makesliceOutOfRange := by
  decide

/-! ## Short-circuit evaluation of Some -/

theorem SomeIndexTraced_loop_trace {E : Type u} {σ : Type v} (fn : σ → E → Int → Bool × σ)
    (l : List E) (i : Int) (st : σ) (tr : List (Call E)) :
    SomeIndexTraced.loop fn l i st tr =
      ((SomeIndexTraced.loop fn l i st []).1, (SomeIndexTraced.loop fn l i st []).2.1,
        tr ++ (SomeIndexTraced.loop fn l i st []).2.2) := by
  induction l generalizing i st tr with
  | nil => simp [SomeIndexTraced.loop]
  | cons x rest ih =>
    by_cases h : (fn st x i).1 = true
    · simp [SomeIndexTraced.loop, h]
    · rw [SomeIndexTraced.loop, SomeIndexTraced.loop]
      simp only [h, if_false, Bool.false_eq_true]
      rw [ih (i + 1) (fn st x i).2 (tr ++ [Call.mk i x false]),
        ih (i + 1) (fn st x i).2 ([] ++ [Call.mk i x false])]
      simp

theorem SomeTraced_loop_spec {E : Type u} {σ : Type v} (fn : σ → E → Bool × σ)
    (l : List E) (i : Int) (st : σ) :
    (∀ (j : Nat) (c : Call E),
      (SomeIndexTraced.loop (fun a v _ => fn a v) l i st []).2.2[j]? = some c →
      c.idx = i + j ∧ l[j]? = some c.arg ∧
      c.result = (fn (stateAfter l fn st j) c.arg).1 ∧
      (j + 1 < (SomeIndexTraced.loop (fun a v _ => fn a v) l i st []).2.2.length →
        c.result = false) ∧
      (j + 1 = (SomeIndexTraced.loop (fun a v _ => fn a v) l i st []).2.2.length →
        c.result = (SomeIndexTraced.loop (fun a v _ => fn a v) l i st []).1)) ∧
    (SomeIndexTraced.loop (fun a v _ => fn a v) l i st []).2.1 =
      stateAfter l fn st (SomeIndexTraced.loop (fun a v _ => fn a v) l i st []).2.2.length ∧
    (SomeIndexTraced.loop (fun a v _ => fn a v) l i st []).2.2.length ≤ l.length ∧
    ((SomeIndexTraced.loop (fun a v _ => fn a v) l i st []).1 = true →
      (SomeIndexTraced.loop (fun a v _ => fn a v) l i st []).2.2 ≠ []) ∧
    ((SomeIndexTraced.loop (fun a v _ => fn a v) l i st []).1 = false →
      (SomeIndexTraced.loop (fun a v _ => fn a v) l i st []).2.2.length = l.length) := by
  induction l generalizing i st with
  | nil => simp [SomeIndexTraced.loop, stateAfter]
  | cons x rest ih =>
    by_cases h : (fn st x).1 = true
    · have hout : SomeIndexTraced.loop (fun a v _ => fn a v) (x :: rest) i st [] =
          (true, (fn st x).2, [Call.mk i x true]) := by
        simp [SomeIndexTraced.loop, h]
      rw [hout]
      refine ⟨?_, by simp [stateAfter], by simp, by simp, by simp⟩
      intro j c hj
      cases j with
      | zero =>
        simp at hj
        subst hj
        simp [stateAfter, h]
      | succ j => simp at hj
    · have hf : (fn st x).1 = false := by simpa using h
      obtain ⟨ih1, ihs, ih2, ih3, ih4⟩ := ih (i + 1) (fn st x).2
      have hout : SomeIndexTraced.loop (fun a v _ => fn a v) (x :: rest) i st [] =
          ((SomeIndexTraced.loop (fun a v _ => fn a v) rest (i + 1) (fn st x).2 []).1,
            (SomeIndexTraced.loop (fun a v _ => fn a v) rest (i + 1) (fn st x).2 []).2.1,
            Call.mk i x false ::
              (SomeIndexTraced.loop (fun a v _ => fn a v) rest (i + 1) (fn st x).2 []).2.2) := by
        rw [SomeIndexTraced.loop]
        simp only [hf, if_false, Bool.false_eq_true]
        rw [SomeIndexTraced_loop_trace]
        simp
      rw [hout]
      generalize SomeIndexTraced.loop (fun a v _ => fn a v) rest (i + 1) (fn st x).2 [] = o
        at ih1 ihs ih2 ih3 ih4
      refine ⟨?_, ?_, by simp; omega, by simp, ?_⟩
      · intro j c hj
        cases j with
        | zero =>
          simp at hj
          subst hj
          refine ⟨by simp, by simp, by simp [stateAfter, hf], by simp, ?_⟩
          intro hlen
          have hnil : o.2.2 = [] := by
            simp at hlen
            exact hlen
          cases ho : o.1 with
          | false => simp [ho]
          | true => exact absurd hnil (ih3 ho)
        | succ j =>
          simp at hj
          obtain ⟨h1, h2, hr, h3, h4⟩ := ih1 j c hj
          refine ⟨?_, by simpa using h2, ?_, ?_, ?_⟩
          · rw [h1]
            push_cast
            omega
          · rw [hr]
            simp [stateAfter]
          · intro hlt
            exact h3 (by simp at hlt; omega)
          · intro heq
            exact h4 (by simp at heq; omega)
      · rw [ihs]
        simp [stateAfter]
      · intro ho
        simp at ho ⊢
        exact ih4 ho

theorem SomeIndexTraced_loop_pure {E : Type u} (p : E → Bool) (l : List E) (i : Int) :
    (SomeIndexTraced.loop (fun (u : Unit) v _ => (p v, u)) l i () []).1 = l.any p ∧
    (SomeIndexTraced.loop (fun (u : Unit) v _ => (p v, u)) l i () []).2.2.map Call.arg =
      l.take (l.findIdx p + 1) ∧
    ∀ c ∈ (SomeIndexTraced.loop (fun (u : Unit) v _ => (p v, u)) l i () []).2.2,
      c.result = p c.arg := by
  induction l generalizing i with
  | nil => simp [SomeIndexTraced.loop]
  | cons x rest ih =>
    by_cases h : p x = true
    · simp [SomeIndexTraced.loop, h, List.findIdx_cons]
    · have hf : p x = false := by simpa using h
      obtain ⟨ih1, ih2, ih3⟩ := ih (i + 1)
      rw [SomeIndexTraced.loop]
      simp only [hf, if_false, Bool.false_eq_true]
      rw [SomeIndexTraced_loop_trace]
      refine ⟨by simp [ih1, hf], ?_, ?_⟩
      · simp [ih2, List.findIdx_cons, hf]
      · intro c hc
        simp at hc
        rcases hc with hc | hc
        · subst hc
          simp [hf]
        · exact ih3 c hc

theorem SomeIndexTraced_loop_logging {E : Type u} (p : E → Bool) (l : List E) (i : Int)
    (log : List E) (tr : List (Call E)) :
    (SomeIndexTraced.loop (fun (a : List E) v _ => (p v, a ++ [v])) l i log tr).1 = l.any p ∧
    (SomeIndexTraced.loop (fun (a : List E) v _ => (p v, a ++ [v])) l i log tr).2.1 =
      log ++ l.take (l.findIdx p + 1) := by
  induction l generalizing i log tr with
  | nil => simp [SomeIndexTraced.loop]
  | cons x rest ih =>
    by_cases h : p x = true
    · simp [SomeIndexTraced.loop, h, List.findIdx_cons]
    · have hf : p x = false := by simpa using h
      rw [SomeIndexTraced.loop]
      simp only [hf, if_false, Bool.false_eq_true]
      obtain ⟨ih1, ih2⟩ := ih (i + 1) (log ++ [x]) (tr ++ [Call.mk i x false])
      refine ⟨by simp [ih1, hf], ?_⟩
      rw [ih2]
      simp [List.findIdx_cons, hf]

/-- Claim C17: `Some(s, p)` with a side-effecting predicate `fn`, which reads
and updates a state.  The run makes `n` calls, `n ≤ len(s)`.  The `j`-th call
is on index `j` and element `s[j]` (ascending order, every index at most
once) and its result is what `fn` returns on `s[j]` in the state left by the
calls on `s[0], ..., s[j-1]`.  Every call but the last returned false and the
last one returned the answer of `Some`; the answer `false` means `n = len(s)`.
The final state is the state left by the calls on `s[0], ..., s[n-1]`, one
each: `fn` has no effect for any later element.  A predicate that records the
elements it is called on has recorded `s[0..k]`, `k` the first index
satisfying `p` (all of `s` if there is none), and for a pure `p` the answer
is that of `Some s p`. -/
theorem Some_short_circuits {E : Type u} {σ : Type v} (s : List E) (fn : σ → E → Bool × σ)
    (st : σ) (p : E → Bool) :
    (∀ (j : Nat) (c : Call E), (SomeTraced s fn st).2.2[j]? = some c →
      c.idx = j ∧ s[j]? = some c.arg ∧
      c.result = (fn (stateAfter s fn st j) c.arg).1 ∧
      (j + 1 < (SomeTraced s fn st).2.2.length → c.result = false) ∧
      (j + 1 = (SomeTraced s fn st).2.2.length → c.result = (SomeTraced s fn st).1)) ∧
    (SomeTraced s fn st).2.1 = stateAfter s fn st (SomeTraced s fn st).2.2.length ∧
    (SomeTraced s fn st).2.2.length ≤ s.length ∧
    ((SomeTraced s fn st).1 = true → (SomeTraced s fn st).2.2 ≠ []) ∧
    ((SomeTraced s fn st).1 = false → (SomeTraced s fn st).2.2.length = s.length) ∧
    (SomeTraced s (fun (log : List E) v => (p v, log ++ [v])) []).1 = Some s p ∧
    (SomeTraced s (fun (log : List E) v => (p v, log ++ [v])) []).2.1 =
      s.take (s.findIdx p + 1) ∧
    (SomeTraced s (fun (u : Unit) v => (p v, u)) ()).1 = Some s p ∧
    (SomeTraced s (fun (u : Unit) v => (p v, u)) ()).2.2.map Call.arg =
      s.take (s.findIdx p + 1) ∧
    (∀ c ∈ (SomeTraced s (fun (u : Unit) v => (p v, u)) ()).2.2, c.result = p c.arg) := by
  obtain ⟨h1, hs, h2, h3, h4⟩ := SomeTraced_loop_spec fn s 0 st
  obtain ⟨g1, g2, g3⟩ := SomeIndexTraced_loop_pure p s 0
  obtain ⟨k1, k2⟩ := SomeIndexTraced_loop_logging p s 0 [] []
  have hany : Some s p = s.any p := by
    rw [Some, SomeIndex, SomeIndex_loop_eq_any]
  refine ⟨?_, hs, h2, h3, h4, ?_, ?_, ?_, g2, g3⟩
  · intro j c hj
    obtain ⟨a, b, r, c1, d⟩ := h1 j c hj
    exact ⟨by simpa using a, b, r, c1, d⟩
  · rw [hany]
    exact k1
  · simpa using k2
  · rw [hany]
    exact g1

/-- A run of the traced `Some`: on `[1, 2, 3, 4]` with the predicate `v = 2`,
which counts its calls in the state, the answer is true after two calls, on
`1` and on `2`, and the counter is 2. -/
theorem SomeTraced_counts_calls :
    SomeTraced [1, 2, 3, 4] (fun (n : Nat) (v : Int) => (decide (v = 2), n + 1)) 0 =
      (true, 2, [Call.mk 0 1 false, Call.mk 1 2 true]) := by
  rfl

/-- A run of the traced `Some` on a predicate whose answer depends on its
state: it answers true on its second call, whatever the element.  On
`[7, 8, 9, 10]` the answer is true after two calls and the counter is 2. -/
theorem SomeTraced_stateful_predicate :
    SomeTraced [7, 8, 9, 10] (fun (n : Nat) (_ : Int) => (decide (n = 1), n + 1)) 0 =
      (true, 2, [Call.mk 0 7 false, Call.mk 1 8 true]) := by
  rfl

/-! ## The structural operations as instances of Splice -/

/-- Where `Splice` returns, the structural operations are instances of it: for
a non-empty `s`, `Shift(s) = Splice(s, 0, 1)` and
`Pop(s) = Splice(s, len(s) - 1, 1)`; for every `s`,
`Push(s, vs...) = Splice(s, len(s), 0, vs...)` and
`Unshift(s, vs...) = Splice(s, 0, 0, vs...)`.  The sequences are Go slices
(`Representable`). -/
theorem structural_ops_as_Splice {E : Type u} (s vs : List E)
    (hout : Representable (s ++ vs)) :
    (s ≠ [] → Shift s = Splice s 0 1 [] ∧ Pop s = Splice s (len s - 1) 1 []) ∧
    Except.ok (Push s vs) = Splice s (len s) 0 vs ∧
    Unshift s vs = Splice s 0 0 vs := by
  have hs := len_nonneg s
  have hv := len_nonneg vs
  have hl : len (s ++ vs) = len s + len vs := by simp [len]
  have hnil : len ([] : List E) = 0 := rfl
  have hmax : maxInt = 2 ^ 63 - 1 := rfl
  unfold Representable at hout
  rw [hl] at hout
  refine ⟨?_, ?_, ?_⟩
  · intro hne
    have hpos : 1 ≤ len s := by
      cases s with
      | nil => exact absurd rfl hne
      | cons x t => simp [len]
    constructor
    · rw [Splice_of_clamped s [] 0 1 (le_refl _) hs (by omega) (by omega) (by omega)
        (by omega)]
      have hm : min ((0 : Int) + 1) (len s) = 1 := by omega
      rw [hm]
      cases s with
      | nil => exact absurd rfl hne
      | cons x t => simp [Shift_cons]
    · rw [Splice_of_clamped s [] (len s - 1) 1 (by omega) (by omega) (by omega) (by omega)
        (by omega) (by omega)]
      have hm : min (len s - 1 + 1) (len s) = len s := by omega
      rw [hm]
      obtain ⟨t, x, rfl⟩ : ∃ t x, s = t ++ [x] :=
        ⟨s.dropLast, s.getLast hne, (List.dropLast_append_getLast hne).symm⟩
      rw [Pop_concat]
      simp [len]
  · rw [Splice_of_clamped s vs (len s) 0 hs (le_refl _) (le_refl _) (by omega) (by omega)
      (by omega)]
    simp [Push, len]
  · have hout2 : Representable (vs ++ s) := by
      unfold Representable
      have : len (vs ++ s) = len vs + len s := by simp [len]
      omega
    have hm : min ((0 : Int) + 0) (len s) = 0 := by omega
    rw [Splice_of_clamped s vs 0 0 (le_refl _) hs (le_refl _) (by omega) (by omega)
      (by omega), Unshift_eq_append s vs hout2, hm]
    simp

/-- Where `deleteCount` is not negative, a result of `Splice` is never longer
than `len(seq) + len(vs)`: no element of the original sequence is
duplicated. -/
theorem Splice_length_le_of_nonneg {E : Type u} (seq vs : List E) (start deleteCount : Int)
    (r : List E) (hd : 0 ≤ deleteCount) (hd2 : deleteCount ≤ maxInt)
    (hseq : Representable seq) (h : Splice seq start deleteCount vs = Except.ok r) :
    len r ≤ len seq + len vs := by
  have hs := len_nonneg seq
  have hmax : maxInt = 2 ^ 63 - 1 := rfl
  have hmin : minInt = -(2 ^ 63) := rfl
  unfold Representable at hseq
  have a1 := wrapInt_mem_range (0 + deleteCount)
  have a2 := wrapInt_emod (0 + deleteCount)
  have b1 := wrapInt_mem_range (start + deleteCount)
  have b2 := wrapInt_emod (start + deleteCount)
  have c1 := wrapInt_mem_range (len seq + deleteCount)
  have c2 := wrapInt_emod (len seq + deleteCount)
  unfold Splice at h
  simp only [makeEmpty, sliceTo, sliceFrom] at h
  split_ifs at h <;>
    first
    | (exfalso; simp at h; done)
    | (simp only [bind_ok, Except.ok.injEq] at h
       subst h
       unfold len at *
       simp only [List.length_append, List.length_take, List.length_drop, List.length_nil]
       omega)

end Slicesx
